import Mathlib

/-!
# Pier core engine — verification of spec claims

Shallow embedding of the parts of `pier-core` (Rust) that the frozen claims
talk about, together with theorems settling each claim:

* `src/terminal/emulator.rs` — the VT100/ANSI emulator (`VtEmulator`,
  `EmulatorPerformer`): cursor invariants and cell-grid access safety.
* `src/terminal/pty.rs` + `src/ffi.rs` — `PtyProcess::write`/`read` error
  mapping surfaced through `pier_terminal_write`.
* `src/ffi.rs` — `pier_ssh_exec` result/JSON mapping.
* `src/ssh/session.rs` — the port-forward registry
  (`start_port_forward` / `stop_port_forward` / `active_forwards`).
* `src/ssh/service_detector.rs` — `parse_version`.
* `src/crypto/mod.rs` — `encrypt` / `decrypt` wrappers (the AES-256-GCM
  primitive itself lives in the external `ring` crate and is modelled).
* `src/git_graph.rs` — `compute_graph_layout` (phase 1 DFS layout indices,
  color assignment, edge list, phase 2 column sweep; phase 3 emits
  IEEE-754 pixel geometry and is outside the claims, so `GraphRow` is
  embedded without the two float-geometry fields).

Machine integers: the Rust code uses `usize` indices that never get near
overflow on the claim-relevant paths, so they are embedded as `Nat`;
`i32` quantities (layout/color indices, exit codes) are embedded as `Int`.
Rust `Vec` indexing panics out of bounds; wherever a claim depends on that
(the emulator), the embedding runs in `Except String` and a panic becomes
`Except.error`.
-/

namespace Pier

/-! ## VT emulator (`src/terminal/emulator.rs`) -/

/-- `Color` from emulator.rs. -/
inductive Color where
  | default
  | indexed (v : Nat)
  | rgb (r g b : Nat)
deriving Repr, DecidableEq

/-- `Cell` from emulator.rs. -/
structure Cell where
  ch : Char
  fg : Color
  bg : Color
  bold : Bool
  underline : Bool
deriving Repr, DecidableEq

/-- `Cell::default()`: a space with default colors and no attributes. -/
def Cell.defaultCell : Cell :=
  { ch := ' ', fg := Color.default, bg := Color.default,
    bold := false, underline := false }

/-- The mutable state of `VtEmulator` (parser state excluded: the `vte`
crate's parser only turns bytes into `Perform` callbacks, it does not touch
the grid). -/
structure VtEmulator where
  cursorX : Nat
  cursorY : Nat
  cols : Nat
  rows : Nat
  cells : List (List Cell)
deriving Repr, DecidableEq

/-- `VtEmulator::new(cols, rows)`. -/
def VtEmulator.new (cols rows : Nat) : VtEmulator :=
  { cursorX := 0, cursorY := 0, cols := cols, rows := rows,
    cells := List.replicate rows (List.replicate cols Cell.defaultCell) }

/-- One `Perform` callback fired by the `vte` parser while processing input
bytes.  CSI parameters are groups of subparameters, as in `vte::Params`;
the remaining callbacks (`hook`, `put`, `unhook`, `osc_dispatch`,
`esc_dispatch`) have empty bodies in emulator.rs and are kept for
completeness. -/
inductive Event where
  | print (ch : Char)
  | execute (byte : Nat)
  | csiDispatch (params : List (List Nat)) (action : Char)
  | hook
  | put
  | unhook
  | oscDispatch
  | escDispatch
deriving Repr, DecidableEq

/-- Rust `self.cells[y][x]` mutation: panics (here: `Except.error`) if `y`
is out of range of the outer `Vec` or `x` out of range of row `y`. -/
def modifyCell (cells : List (List Cell)) (y x : Nat) (f : Cell → Cell) :
    Except String (List (List Cell)) :=
  match cells.get? y with
  | none => Except.error "index out of bounds"
  | some row =>
      if h : x < row.length then
        Except.ok (cells.set y (row.set x (f (row.get ⟨x, h⟩))))
      else
        Except.error "index out of bounds"

/-- A run of `self.cells[y][x] = Cell::default()` assignments over the
column indices `xs` of row `y`, failing at the first out-of-bounds index
exactly as the Rust `for` loops in the `J`/`K` handlers would panic. -/
def eraseCells (cells : List (List Cell)) (y : Nat) :
    List Nat → Except String (List (List Cell))
  | [] => Except.ok cells
  | x :: rest =>
      match modifyCell cells y x (fun _ => Cell.defaultCell) with
      | Except.error e => Except.error e
      | Except.ok cs' => eraseCells cs' y rest

/-- The nested `for y { for x }` clearing loops of the `J` handler. -/
def eraseRows (cells : List (List Cell)) (xs : List Nat) :
    List Nat → Except String (List (List Cell))
  | [] => Except.ok cells
  | y :: rest =>
      match eraseCells cells y xs with
      | Except.error e => Except.error e
      | Except.ok cs' => eraseRows cs' xs rest

/-- `EmulatorPerformer::scroll_up`: `cells.remove(0)` then push a blank
row (`remove(0)` panics on an empty vector). -/
def scrollUp (s : VtEmulator) : Except String VtEmulator :=
  match s.cells with
  | [] => Except.error "removal index (is 0) should be < len (is 0)"
  | _ :: rest =>
      Except.ok { s with cells := rest ++ [List.replicate s.cols Cell.defaultCell] }

/-- `EmulatorPerformer::newline`: set `cursor_x = 0`, then advance the row
(scrolling when at the bottom; scrolling does not move the cursor). -/
def newline (s : VtEmulator) : Except String VtEmulator :=
  if s.cursorY + 1 ≥ s.rows then
    scrollUp { s with cursorX := 0 }
  else
    Except.ok { s with cursorX := 0, cursorY := s.cursorY + 1 }

/-- `Perform::print` for `EmulatorPerformer`. -/
def printChar (ch : Char) (s : VtEmulator) : Except String VtEmulator :=
  match (if s.cursorX ≥ s.cols then newline s else Except.ok s) with
  | Except.error e => Except.error e
  | Except.ok s1 =>
      if s1.cursorY < s1.cells.length ∧ s1.cursorX < s1.cols then
        match modifyCell s1.cells s1.cursorY s1.cursorX (fun c => { c with ch := ch }) with
        | Except.error e => Except.error e
        | Except.ok cells' =>
            Except.ok { s1 with cells := cells', cursorX := s1.cursorX + 1 }
      else
        Except.ok s1

/-- `Perform::execute` for `EmulatorPerformer`. -/
def executeByte (byte : Nat) (s : VtEmulator) : Except String VtEmulator :=
  if byte = 10 ∨ byte = 0x0b ∨ byte = 0x0c then
    -- LF / VT / FF
    if s.cursorY + 1 ≥ s.rows then scrollUp s
    else Except.ok { s with cursorY := s.cursorY + 1 }
  else if byte = 13 then
    Except.ok { s with cursorX := 0 }
  else if byte = 0x08 then
    if s.cursorX > 0 then Except.ok { s with cursorX := s.cursorX - 1 }
    else Except.ok s
  else if byte = 9 then
    let nextTab := (s.cursorX / 8 + 1) * 8
    Except.ok { s with cursorX := min nextTab (s.cols - 1) }
  else
    Except.ok s

/-- `params.iter().next().and_then(|p| p.first().copied()).unwrap_or(0)`:
first value of the first CSI parameter group, defaulting to 0. -/
def csiFirst (params : List (List Nat)) : Nat :=
  ((params.head?).bind List.head?).getD 0

/-- The first value of the second CSI parameter group, defaulting to 0. -/
def csiSecond (params : List (List Nat)) : Nat :=
  (((params.drop 1).head?).bind List.head?).getD 0

/-- `n = if first == 0 { 1 } else { first }`: CSI motion count default. -/
def csiCount (first : Nat) : Nat :=
  if first = 0 then 1 else first

/-- `Perform::csi_dispatch` for `EmulatorPerformer`. -/
def csiDispatch (params : List (List Nat)) (action : Char) (s : VtEmulator) :
    Except String VtEmulator :=
  if action = 'A' then
    Except.ok { s with cursorY := s.cursorY - csiCount (csiFirst params) }
  else if action = 'B' then
    Except.ok
      { s with cursorY := min (s.cursorY + csiCount (csiFirst params)) (s.rows - 1) }
  else if action = 'C' then
    Except.ok
      { s with cursorX := min (s.cursorX + csiCount (csiFirst params)) (s.cols - 1) }
  else if action = 'D' then
    Except.ok { s with cursorX := s.cursorX - csiCount (csiFirst params) }
  else if action = 'H' ∨ action = 'f' then
    Except.ok { s with
      cursorY := min (csiCount (csiFirst params) - 1) (s.rows - 1),
      cursorX := min (csiCount (csiSecond params) - 1) (s.cols - 1) }
  else if action = 'J' then
    if csiFirst params = 0 then
      -- clear from cursor to end of screen
      match eraseCells s.cells s.cursorY ((List.range s.cols).drop s.cursorX) with
      | Except.error e => Except.error e
      | Except.ok cells1 =>
          match eraseRows cells1 (List.range s.cols)
              ((List.range s.rows).drop (s.cursorY + 1)) with
          | Except.error e => Except.error e
          | Except.ok cells2 => Except.ok { s with cells := cells2 }
    else if csiFirst params = 1 then
      -- clear from start to cursor (inclusive): `for x in 0..=cursor_x`
      match eraseRows s.cells (List.range s.cols) (List.range s.cursorY) with
      | Except.error e => Except.error e
      | Except.ok cells1 =>
          match eraseCells cells1 s.cursorY (List.range (s.cursorX + 1)) with
          | Except.error e => Except.error e
          | Except.ok cells2 => Except.ok { s with cells := cells2 }
    else if csiFirst params = 2 ∨ csiFirst params = 3 then
      match eraseRows s.cells (List.range s.cols) (List.range s.rows) with
      | Except.error e => Except.error e
      | Except.ok cells' => Except.ok { s with cells := cells' }
    else
      Except.ok s
  else if action = 'K' then
    if csiFirst params = 0 then
      match eraseCells s.cells s.cursorY ((List.range s.cols).drop s.cursorX) with
      | Except.error e => Except.error e
      | Except.ok cells' => Except.ok { s with cells := cells' }
    else if csiFirst params = 1 then
      -- `for x in 0..=cursor_x`
      match eraseCells s.cells s.cursorY (List.range (s.cursorX + 1)) with
      | Except.error e => Except.error e
      | Except.ok cells' => Except.ok { s with cells := cells' }
    else if csiFirst params = 2 then
      match eraseCells s.cells s.cursorY (List.range s.cols) with
      | Except.error e => Except.error e
      | Except.ok cells' => Except.ok { s with cells := cells' }
    else
      Except.ok s
  else
    Except.ok s

/-- Dispatch a single `vte::Perform` callback to its handler. -/
def applyEvent (e : Event) (s : VtEmulator) : Except String VtEmulator :=
  match e with
  | Event.print ch => printChar ch s
  | Event.execute b => executeByte b s
  | Event.csiDispatch ps a => csiDispatch ps a s
  | Event.hook => Except.ok s
  | Event.put => Except.ok s
  | Event.unhook => Except.ok s
  | Event.oscDispatch => Except.ok s
  | Event.escDispatch => Except.ok s

/-- `VtEmulator::process`: the `vte` parser turns the input bytes into a
sequence of `Perform` callbacks which are applied left to right.  A Rust
index-out-of-bounds panic surfaces as `Except.error`. -/
def VtEmulator.process (events : List Event) (s : VtEmulator) :
    Except String VtEmulator :=
  match events with
  | [] => Except.ok s
  | e :: es =>
      match applyEvent e s with
      | Except.ok s' => VtEmulator.process es s'
      | Except.error msg => Except.error msg

/-! ### Grid and cursor invariants -/

/-- The cell grid has exactly `rows` rows of exactly `cols` cells. -/
def Dims (cols rows : Nat) (cells : List (List Cell)) : Prop :=
  cells.length = rows ∧ ∀ r ∈ cells, r.length = cols

/-- The invariant maintained by every `Perform` handler: fixed dimensions,
`cursor_x ≤ cols` and `cursor_y < rows`. -/
def Inv (cols rows : Nat) (s : VtEmulator) : Prop :=
  s.cols = cols ∧ s.rows = rows ∧ s.cursorX ≤ cols ∧ s.cursorY < rows ∧
    Dims cols rows s.cells

theorem modifyCell_dims {cols rows : Nat} {cells cells' : List (List Cell)}
    {y x : Nat} {f : Cell → Cell} (hd : Dims cols rows cells)
    (h : modifyCell cells y x f = Except.ok cells') : Dims cols rows cells' := by
  unfold modifyCell at h
  split at h
  · exact absurd h (by simp)
  case _ row hget =>
    split at h
    · cases h
      refine ⟨by simpa using hd.1, ?_⟩
      intro r hr
      rcases List.mem_or_eq_of_mem_set hr with h1 | h2
      · exact hd.2 r h1
      · subst h2
        simpa using hd.2 row (List.get?_mem hget)
    · exact absurd h (by simp)

theorem eraseCells_dims {cols rows : Nat} {y : Nat} :
    ∀ (xs : List Nat) (cells cells' : List (List Cell)), Dims cols rows cells →
      eraseCells cells y xs = Except.ok cells' → Dims cols rows cells'
  | [], cells, cells', hd, h => by
      unfold eraseCells at h
      cases h; exact hd
  | x :: rest, cells, cells', hd, h => by
      unfold eraseCells at h
      split at h
      · exact absurd h (by simp)
      case _ cs1 hmc =>
        exact eraseCells_dims rest cs1 cells' (modifyCell_dims hd hmc) h

theorem eraseRows_dims {cols rows : Nat} {xs : List Nat} :
    ∀ (ys : List Nat) (cells cells' : List (List Cell)), Dims cols rows cells →
      eraseRows cells xs ys = Except.ok cells' → Dims cols rows cells'
  | [], cells, cells', hd, h => by
      unfold eraseRows at h
      cases h; exact hd
  | y :: rest, cells, cells', hd, h => by
      unfold eraseRows at h
      split at h
      · exact absurd h (by simp)
      case _ cs1 hec =>
        exact eraseRows_dims rest cs1 cells' (eraseCells_dims xs cells cs1 hd hec) h

theorem scrollUp_inv {cols rows : Nat} {s s' : VtEmulator} (hinv : Inv cols rows s)
    (h : scrollUp s = Except.ok s') : Inv cols rows s' := by
  obtain ⟨hc, hr, hx, hy, hlen, hrow⟩ := hinv
  unfold scrollUp at h
  split at h
  · exact absurd h (by simp)
  case _ r rest heq =>
    cases h
    refine ⟨hc, hr, hx, hy, ?_, ?_⟩
    · show (rest ++ [List.replicate s.cols Cell.defaultCell]).length = rows
      have hlen' : rest.length + 1 = rows := by
        rw [heq] at hlen
        simpa using hlen
      simp
      omega
    · intro t ht
      rcases List.mem_append.1 ht with h1 | h2
      · exact hrow t (by simp [heq, h1])
      · simp at h2
        simp [h2, hc]

theorem newline_inv {cols rows : Nat} {s s' : VtEmulator} (hinv : Inv cols rows s)
    (h : newline s = Except.ok s') : Inv cols rows s' := by
  obtain ⟨hc, hr, hx, hy, hdims⟩ := hinv
  unfold newline at h
  split at h
  · exact scrollUp_inv (s := { s with cursorX := 0 }) ⟨hc, hr, Nat.zero_le _, hy, hdims⟩ h
  case _ hlt =>
    cases h
    exact ⟨hc, hr, Nat.zero_le _, by show s.cursorY + 1 < rows; omega, hdims⟩

theorem printChar_inv {cols rows : Nat} {ch : Char} {s s' : VtEmulator}
    (hinv : Inv cols rows s) (h : printChar ch s = Except.ok s') :
    Inv cols rows s' := by
  unfold printChar at h
  split at h
  · exact absurd h (by simp)
  case _ s1 hstage =>
    have hinv1 : Inv cols rows s1 := by
      by_cases hge : s.cursorX ≥ s.cols
      · rw [if_pos hge] at hstage
        exact newline_inv hinv hstage
      · rw [if_neg hge] at hstage
        cases hstage; exact hinv
    obtain ⟨hc, hr, hx, hy, hdims⟩ := hinv1
    split at h
    case _ hguard =>
      split at h
      · exact absurd h (by simp)
      case _ cells1 hmc =>
        cases h
        refine ⟨hc, hr, ?_, hy, modifyCell_dims hdims hmc⟩
        show s1.cursorX + 1 ≤ cols
        have := hguard.2
        omega
    · cases h
      exact ⟨hc, hr, hx, hy, hdims⟩

theorem executeByte_inv {cols rows : Nat} {b : Nat} {s s' : VtEmulator}
    (hinv : Inv cols rows s)
    (h : executeByte b s = Except.ok s') : Inv cols rows s' := by
  obtain ⟨hc, hr, hx, hy, hdims⟩ := hinv
  unfold executeByte at h
  split at h
  · -- LF / VT / FF
    split at h
    · exact scrollUp_inv ⟨hc, hr, hx, hy, hdims⟩ h
    case _ hlt =>
      cases h
      exact ⟨hc, hr, hx, by show s.cursorY + 1 < rows; omega, hdims⟩
  · split at h
    · -- CR
      cases h; exact ⟨hc, hr, Nat.zero_le _, hy, hdims⟩
    · split at h
      · -- BS
        split at h
        · cases h
          exact ⟨hc, hr, by show s.cursorX - 1 ≤ cols; omega, hy, hdims⟩
        · cases h; exact ⟨hc, hr, hx, hy, hdims⟩
      · split at h
        · -- HT
          cases h
          refine ⟨hc, hr, ?_, hy, hdims⟩
          show min ((s.cursorX / 8 + 1) * 8) (s.cols - 1) ≤ cols
          omega
        · cases h; exact ⟨hc, hr, hx, hy, hdims⟩

theorem csiDispatch_inv {cols rows : Nat} {ps : List (List Nat)} {a : Char}
    {s s' : VtEmulator} (hrows : 1 ≤ rows) (hinv : Inv cols rows s)
    (h : csiDispatch ps a s = Except.ok s') : Inv cols rows s' := by
  obtain ⟨hc, hr, hx, hy, hdims⟩ := hinv
  unfold csiDispatch at h
  by_cases hA : a = 'A'
  · rw [if_pos hA] at h
    cases h
    exact ⟨hc, hr, hx, by show s.cursorY - csiCount (csiFirst ps) < rows; omega, hdims⟩
  rw [if_neg hA] at h
  by_cases hB : a = 'B'
  · rw [if_pos hB] at h
    cases h
    refine ⟨hc, hr, hx, ?_, hdims⟩
    show min (s.cursorY + csiCount (csiFirst ps)) (s.rows - 1) < rows
    omega
  rw [if_neg hB] at h
  by_cases hC : a = 'C'
  · rw [if_pos hC] at h
    cases h
    refine ⟨hc, hr, ?_, hy, hdims⟩
    show min (s.cursorX + csiCount (csiFirst ps)) (s.cols - 1) ≤ cols
    omega
  rw [if_neg hC] at h
  by_cases hD : a = 'D'
  · rw [if_pos hD] at h
    cases h
    exact ⟨hc, hr, by show s.cursorX - csiCount (csiFirst ps) ≤ cols; omega, hy, hdims⟩
  rw [if_neg hD] at h
  by_cases hH : a = 'H' ∨ a = 'f'
  · rw [if_pos hH] at h
    cases h
    refine ⟨hc, hr, ?_, ?_, hdims⟩
    · show min (csiCount (csiSecond ps) - 1) (s.cols - 1) ≤ cols
      omega
    · show min (csiCount (csiFirst ps) - 1) (s.rows - 1) < rows
      omega
  rw [if_neg hH] at h
  by_cases hJ : a = 'J'
  · rw [if_pos hJ] at h
    split at h
    · split at h
      · exact absurd h (by simp)
      case _ cells1 h1 =>
        split at h
        · exact absurd h (by simp)
        case _ cells2 h2 =>
          cases h
          exact ⟨hc, hr, hx, hy, eraseRows_dims _ _ _ (eraseCells_dims _ _ _ hdims h1) h2⟩
    split at h
    · split at h
      · exact absurd h (by simp)
      case _ cells1 h1 =>
        split at h
        · exact absurd h (by simp)
        case _ cells2 h2 =>
          cases h
          exact ⟨hc, hr, hx, hy, eraseCells_dims _ _ _ (eraseRows_dims _ _ _ hdims h1) h2⟩
    split at h
    · split at h
      · exact absurd h (by simp)
      case _ cells1 h1 =>
        cases h
        exact ⟨hc, hr, hx, hy, eraseRows_dims _ _ _ hdims h1⟩
    · cases h; exact ⟨hc, hr, hx, hy, hdims⟩
  rw [if_neg hJ] at h
  by_cases hK : a = 'K'
  · rw [if_pos hK] at h
    split at h
    · split at h
      · exact absurd h (by simp)
      case _ cells1 h1 =>
        cases h
        exact ⟨hc, hr, hx, hy, eraseCells_dims _ _ _ hdims h1⟩
    split at h
    · split at h
      · exact absurd h (by simp)
      case _ cells1 h1 =>
        cases h
        exact ⟨hc, hr, hx, hy, eraseCells_dims _ _ _ hdims h1⟩
    split at h
    · split at h
      · exact absurd h (by simp)
      case _ cells1 h1 =>
        cases h
        exact ⟨hc, hr, hx, hy, eraseCells_dims _ _ _ hdims h1⟩
    · cases h; exact ⟨hc, hr, hx, hy, hdims⟩
  rw [if_neg hK] at h
  cases h
  exact ⟨hc, hr, hx, hy, hdims⟩


theorem applyEvent_inv {cols rows : Nat} {e : Event} {s s' : VtEmulator}
    (hrows : 1 ≤ rows) (hinv : Inv cols rows s)
    (h : applyEvent e s = Except.ok s') : Inv cols rows s' := by
  cases e with
  | print ch => exact printChar_inv hinv h
  | execute b => exact executeByte_inv hinv h
  | csiDispatch ps a => exact csiDispatch_inv hrows hinv h
  | hook => cases h; exact hinv
  | put => cases h; exact hinv
  | unhook => cases h; exact hinv
  | oscDispatch => cases h; exact hinv
  | escDispatch => cases h; exact hinv

theorem process_inv {cols rows : Nat} (hrows : 1 ≤ rows) :
    ∀ (events : List Event) (s s' : VtEmulator), Inv cols rows s →
      VtEmulator.process events s = Except.ok s' → Inv cols rows s'
  | [], s, s', hinv, h => by
      unfold VtEmulator.process at h
      cases h; exact hinv
  | e :: es, s, s', hinv, h => by
      unfold VtEmulator.process at h
      split at h
      case _ s1 happ =>
        exact process_inv hrows es s1 s' (applyEvent_inv hrows hinv happ) h
      · exact absurd h (by simp)

theorem new_inv {cols rows : Nat} (hrows : 1 ≤ rows) :
    Inv cols rows (VtEmulator.new cols rows) := by
  refine ⟨rfl, rfl, Nat.zero_le _, hrows, by simp [VtEmulator.new], ?_⟩
  intro r hr
  simp [VtEmulator.new] at hr
  simp [hr]

/-! ### Claims C1 and C10 -/

/-- **C1 (amended).** For every `VtEmulator` created with `cols ≥ 1` and
`rows ≥ 1`, after processing any sequence of input bytes via
`VtEmulator::process` that completes without a panic, the cursor satisfies
`0 ≤ cursor_x ≤ cols` and `0 ≤ cursor_y < rows`.  (The original claim's
strict bound `cursor_x < cols` is refuted by `vtCursorCanReachCols` below:
`print` leaves `cursor_x = cols` after writing in the last column; the
lower bounds hold trivially since the coordinates are natural numbers.) -/
theorem vtCursorBounds (cols rows : Nat) (events : List Event) (s' : VtEmulator)
    (_hcols : 1 ≤ cols) (hrows : 1 ≤ rows)
    (h : VtEmulator.process events (VtEmulator.new cols rows) = Except.ok s') :
    s'.cursorX ≤ cols ∧ s'.cursorY < rows := by
  have hinv := process_inv hrows events _ s' (new_inv hrows) h
  exact ⟨hinv.2.2.1, hinv.2.2.2.1⟩

/-- **C1 (witness).** `vtCursorBounds` applied to a 2×2 emulator processing
`"h\r"` (a print and a carriage return). -/
theorem vtCursorBoundsWitness :
    ({ cursorX := 0, cursorY := 0, cols := 2, rows := 2,
       cells := [[{ Cell.defaultCell with ch := 'h' }, Cell.defaultCell],
                 [Cell.defaultCell, Cell.defaultCell]] } : VtEmulator).cursorX ≤ 2 ∧
    ({ cursorX := 0, cursorY := 0, cols := 2, rows := 2,
       cells := [[{ Cell.defaultCell with ch := 'h' }, Cell.defaultCell],
                 [Cell.defaultCell, Cell.defaultCell]] } : VtEmulator).cursorY < 2 :=
  vtCursorBounds 2 2 [Event.print 'h', Event.execute 13] _
    (by decide) (by decide) rfl

/-- **C1 (counterexample).** The claim's strict bound `cursor_x < cols`
fails on the code: a 1×1 emulator that prints one character ends with
`cursor_x = 1 = cols` (the run succeeds, no scroll or wrap happens yet). -/
theorem vtCursorCanReachCols :
    (VtEmulator.process [Event.print 'a'] (VtEmulator.new 1 1)).map VtEmulator.cursorX
      = Except.ok 1 ∧ (VtEmulator.new 1 1).cols = 1 :=
  ⟨rfl, rfl⟩

/-- **C10.** The claim that processing never panics and that the CSI `J`/`K`
erase handlers only touch columns strictly below `cols` is false on the
code: after `print 'a'` in a 1×1 grid the cursor sits at `cursor_x = 1 =
cols`, and the CSI `K` handler with parameter 1 runs `for x in 0..=1`,
indexing `cells[0][1]` in a row of length 1 — an out-of-bounds panic.
Byte input realizing this event sequence: `b"a\x1b[1K"`. -/
theorem vtCsiKPanics :
    VtEmulator.process [Event.print 'a', Event.csiDispatch [[1]] 'K']
      (VtEmulator.new 1 1) = Except.error "index out of bounds" := rfl

/-! ## PTY write/read error mapping (`src/terminal/pty.rs`, `src/ffi.rs`) -/

/-- The `errno` kind behind `std::io::Error::last_os_error()` after a
failed syscall: `WouldBlock` (EAGAIN on the non-blocking master) or any
other OS error code. -/
inductive OsErrorKind where
  | wouldBlock
  | other (code : Nat)
deriving Repr, DecidableEq

/-- Outcome of one raw `libc::write`/`libc::read` call on the master fd:
the returned `isize` and the `errno` kind that
`std::io::Error::last_os_error()` would report when the result is
negative. -/
structure OsCallResult where
  result : Int
  errnoKind : OsErrorKind
deriving Repr, DecidableEq

/-- `PtyProcess::write`: `Ok(())` iff the raw result is nonnegative
(partial writes included — the count is discarded); ANY negative result is
turned into the last OS error.  There is no `WouldBlock` special case in
this function. -/
def ptyWrite (os : OsCallResult) : Except OsErrorKind Unit :=
  if os.result < 0 then Except.error os.errnoKind else Except.ok ()

/-- `PtyProcess::read`: positive result returns the filled prefix, zero
returns an empty buffer, and a negative result returns an empty buffer for
`WouldBlock` but propagates every other error. -/
def ptyRead (os : OsCallResult) (buf : List Nat) : Except OsErrorKind (List Nat) :=
  if os.result > 0 then Except.ok (buf.take os.result.toNat)
  else if os.result = 0 then Except.ok []
  else if os.errnoKind = OsErrorKind.wouldBlock then Except.ok []
  else Except.error os.errnoKind

/-- `pier_terminal_write` (ffi.rs): 0 when `TerminalSession::write` — which
just forwards to `PtyProcess::write` — returns `Ok`, and -1 on `Err`. -/
def pierTerminalWrite (os : OsCallResult) : Int :=
  match ptyWrite os with
  | Except.ok _ => 0
  | Except.error _ => -1

/-- **C2 (amended).** `PtyProcess::write` reports success (boundary 0)
exactly when the raw OS write result is nonnegative — partial writes
included.  Every negative result, `WouldBlock`/EAGAIN included, becomes an
`IoError` and a boundary return of -1: unlike `read`, `write` has no
`WouldBlock` special case.  (The original claim — WouldBlock is not an
error for `write` — is refuted by `ptyWriteWouldBlockIsError`.) -/
theorem ptyWriteErrorMapping (os : OsCallResult) :
    (0 ≤ os.result → ptyWrite os = Except.ok () ∧ pierTerminalWrite os = 0) ∧
    (os.result < 0 →
      ptyWrite os = Except.error os.errnoKind ∧ pierTerminalWrite os = -1) := by
  constructor
  · intro hge
    have hlt : ¬ os.result < 0 := by omega
    constructor
    · simp [ptyWrite, hlt]
    · simp [pierTerminalWrite, ptyWrite, hlt]
  · intro hlt
    constructor
    · simp [ptyWrite, hlt]
    · simp [pierTerminalWrite, ptyWrite, hlt]

/-- **C2 (witness).** `ptyWriteErrorMapping` applied to a successful
3-byte write and to a failed write with errno EIO (code 5). -/
theorem ptyWriteErrorMappingWitness :
    (ptyWrite ⟨3, OsErrorKind.other 5⟩ = Except.ok () ∧
      pierTerminalWrite ⟨3, OsErrorKind.other 5⟩ = 0) ∧
    (ptyWrite ⟨-1, OsErrorKind.other 5⟩ = Except.error (OsErrorKind.other 5) ∧
      pierTerminalWrite ⟨-1, OsErrorKind.other 5⟩ = -1) :=
  ⟨(ptyWriteErrorMapping ⟨3, OsErrorKind.other 5⟩).1 (by decide),
   (ptyWriteErrorMapping ⟨-1, OsErrorKind.other 5⟩).2 (by decide)⟩

/-- **C2 (counterexample).** A `WouldBlock` condition on the write path IS
an error in the code: the raw result -1 with errno EAGAIN yields
`Err(IoError)` from `PtyProcess::write` and -1 (not 0/success) from
`pier_terminal_write`, contradicting the claim that WouldBlock is reported
as success with 0 bytes written. -/
theorem ptyWriteWouldBlockIsError :
    ptyWrite ⟨-1, OsErrorKind.wouldBlock⟩ = Except.error OsErrorKind.wouldBlock ∧
    pierTerminalWrite ⟨-1, OsErrorKind.wouldBlock⟩ = -1 :=
  ⟨rfl, rfl⟩

/-! ## `pier_ssh_exec` JSON result mapping (`src/ffi.rs`) -/

/-- One hex digit, lowercase, as emitted by serde_json's `\u00XX` escapes. -/
def hexDigit (n : Nat) : Char :=
  if n < 10 then Char.ofNat (48 + n) else Char.ofNat (87 + n)

/-- Four lowercase hex digits. -/
def hex4 (n : Nat) : String :=
  String.mk [hexDigit ((n / 4096) % 16), hexDigit ((n / 256) % 16),
             hexDigit ((n / 16) % 16), hexDigit (n % 16)]

/-- serde_json's JSON string escaping of a single character. -/
def jsonEscapeChar (c : Char) : String :=
  if c = '"' then "\\\"" else if c = '\\' then "\\\\"
  else if c = Char.ofNat 8 then "\\b" else if c = Char.ofNat 9 then "\\t"
  else if c = Char.ofNat 10 then "\\n" else if c = Char.ofNat 12 then "\\f"
  else if c = Char.ofNat 13 then "\\r"
  else if c.toNat < 32 then "\\u" ++ hex4 c.toNat
  else String.singleton c

/-- serde_json's rendering of a JSON string literal. -/
def jsonStringLit (s : String) : String :=
  "\"" ++ String.join (s.toList.map jsonEscapeChar) ++ "\""

/-- `serde_json::json!` object with keys `exit_code` and `stdout`,
serialized compactly; serde_json's map is ordered by key, so `exit_code`
precedes `stdout`. -/
def execResultJson (exitCode : Int) (stdout : String) : String :=
  "\x7b\"exit_code\":" ++ toString exitCode ++ ",\"stdout\":" ++
    jsonStringLit stdout ++ "\x7d"

/-- Result of `ssh_runtime().block_on(tokio::time::timeout(60s,
session.exec_command(cmd)))`, the external async race in `pier_ssh_exec`:
the command completed with `(exit_code, stdout)`, `exec_command` itself
failed, or the 60-second boundary deadline elapsed first (which is what a
dead transport produces, since no channel message ever arrives). -/
inductive ExecOutcome where
  | completed (exitCode : Int) (stdout : String)
  | failed (errMsg : String)
  | timedOut
deriving Repr, DecidableEq

/-- Does the string contain an interior NUL (the only way `CString::new`
can fail)? -/
def hasNulChar (s : String) : Bool :=
  s.toList.any (fun c => c.toNat = 0)

/-- `pier_ssh_exec` (ffi.rs), given the outcome of the bridged 60-second
race: `none` models the null pointer return (`CString::new` failure), a
`some` carries the JSON written back to the host.  The error branches use
`unwrap_or_default`, so they return the empty string instead of null on a
NUL byte. -/
def pierSshExec (outcome : ExecOutcome) : Option String :=
  match outcome with
  | ExecOutcome.completed code out =>
      let json := execResultJson code out
      if hasNulChar json then none else some json
  | ExecOutcome.failed msg =>
      let json := execResultJson (-1) ("Error: " ++ msg)
      some (if hasNulChar json then "" else json)
  | ExecOutcome.timedOut =>
      let json := execResultJson (-1) "Error: command timed out after 60s"
      some (if hasNulChar json then "" else json)

/-- **C7.** Whenever the boundary-level 60-second timeout on
`exec_command` elapses — in particular when the transport has died and no
channel message ever arrives, so the race can only end by the deadline —
`pier_ssh_exec` returns the JSON object with `exit_code` -1 and the
synthetic stdout `Error: command timed out after 60s`.  (The elapsed
deadline is modelled as the `timedOut` outcome of the external async race;
the "within ~60 seconds" wall-clock bound is the deadline itself and has
no shallow-embedding content.) -/
theorem sshExecTimeoutJson :
    pierSshExec ExecOutcome.timedOut =
      some "\x7b\"exit_code\":-1,\"stdout\":\"Error: command timed out after 60s\"\x7d" :=
  rfl

/-! ## Port-forward registry (`src/ssh/session.rs`) -/

/-- Errors of the forwarding operations (each produced via
`anyhow::anyhow!` in the source). -/
inductive ForwardError where
  | alreadyForwarded (port : Nat)
  | notConnected
  | bindFailed
  | notFound (port : Nat)
deriving Repr, DecidableEq

/-- The claim-relevant state of `SshSession`: whether `handle` is `Some`
and the key set of the `forwards: HashMap<u16, watch::Sender<bool>>` map
(the values are cancel-signal senders — concurrency handles with no
observable state through `active_forwards`, so only the keys are
modelled). -/
structure SshSessionState where
  connected : Bool
  forwards : List Nat
deriving Repr, DecidableEq

/-- `SshSession::start_port_forward`: reject an already-forwarded port,
then require a connection, then bind the TCP listener (its success is the
`bindOk` input), then spawn the accept loop and insert the port. -/
def startPortForward (s : SshSessionState) (localPort : Nat)
    (_remoteHost : String) (_remotePort : Nat) (bindOk : Bool) :
    Except ForwardError SshSessionState :=
  if localPort ∈ s.forwards then
    Except.error (ForwardError.alreadyForwarded localPort)
  else if s.connected = false then
    Except.error ForwardError.notConnected
  else if bindOk = false then
    Except.error ForwardError.bindFailed
  else
    Except.ok { s with forwards := s.forwards ++ [localPort] }

/-- `SshSession::stop_port_forward`: remove the port and latch its cancel
signal, or fail with `NotFound`; on failure the map is untouched (the
session state is unchanged). -/
def stopPortForward (s : SshSessionState) (localPort : Nat) :
    Except ForwardError SshSessionState :=
  if localPort ∈ s.forwards then
    Except.ok { s with forwards := s.forwards.erase localPort }
  else
    Except.error (ForwardError.notFound localPort)

/-- `SshSession::active_forwards`: snapshot of the map's keys. -/
def activeForwards (s : SshSessionState) : List Nat :=
  s.forwards

/-- **C8.** For every connected SSH session (with duplicate-free forward
keys, as a `HashMap` guarantees): a successful `start_port_forward(p, h,
rp)` leaves `p` in `active_forwards()` (and keeps the keys
duplicate-free); a successful `stop_port_forward(p)` removes `p` from
`active_forwards()`; and `stop_port_forward(p)` for a port not currently
forwarded returns the `NotFound` error — no new state is produced, the
forwards map is unchanged. -/
theorem portForwardRegistry (s : SshSessionState) (p : Nat) (host : String)
    (rp : Nat) (bindOk : Bool) (hnodup : s.forwards.Nodup) :
    (∀ s₁, startPortForward s p host rp bindOk = Except.ok s₁ →
      p ∈ activeForwards s₁ ∧ s₁.forwards.Nodup) ∧
    (∀ s₂, stopPortForward s p = Except.ok s₂ → p ∉ activeForwards s₂) ∧
    (p ∉ activeForwards s →
      stopPortForward s p = Except.error (ForwardError.notFound p)) := by
  refine ⟨?_, ?_, ?_⟩
  · intro s₁ h
    unfold startPortForward at h
    split at h
    · exact absurd h (by simp)
    case _ hmem =>
      split at h
      · exact absurd h (by simp)
      split at h
      · exact absurd h (by simp)
      cases h
      constructor
      · show p ∈ activeForwards _
        simp [activeForwards]
      · show (s.forwards ++ [p]).Nodup
        simp [List.nodup_append, hnodup, hmem]
  · intro s₂ h
    unfold stopPortForward at h
    split at h
    case _ hmem =>
      cases h
      show p ∉ s.forwards.erase p
      exact hnodup.not_mem_erase
    · exact absurd h (by simp)
  · intro hmem
    unfold stopPortForward
    rw [if_neg (show p ∉ s.forwards from hmem)]

/-- **C8 (witness).** `portForwardRegistry` on a connected session already
forwarding port 5432: starting 8080 succeeds and registers it, stopping
5432 deregisters it, stopping 9999 is `NotFound`. -/
theorem portForwardRegistryWitness :
    (8080 ∈ activeForwards ⟨true, [5432, 8080]⟩ ∧
      ([5432, 8080] : List Nat).Nodup) ∧
    (9999 ∉ activeForwards ⟨true, [5432]⟩ →
      stopPortForward ⟨true, [5432]⟩ 9999 =
        Except.error (ForwardError.notFound 9999)) := by
  constructor
  · exact (portForwardRegistry ⟨true, [5432]⟩ 8080 "db.internal" 5432 true
      (by decide)).1 ⟨true, [5432, 8080]⟩ rfl
  · exact fun hm => (portForwardRegistry ⟨true, [5432]⟩ 9999 "" 0 true
      (by decide)).2.2 hm

/-! ## Version parsing (`src/ssh/service_detector.rs`) -/

/-- Rust `char::is_whitespace`: the Unicode `White_Space` property. -/
def isRustWhitespace (c : Char) : Bool :=
  (c == ' ') || (c.toNat == 9) || (c.toNat == 10) || (c.toNat == 11) ||
  (c.toNat == 12) || (c.toNat == 13) || (c.toNat == 0x85) || (c.toNat == 0xa0) ||
  (c.toNat == 0x1680) || (0x2000 ≤ c.toNat && c.toNat ≤ 0x200a) ||
  (c.toNat == 0x2028) || (c.toNat == 0x2029) || (c.toNat == 0x202f) ||
  (c.toNat == 0x205f) || (c.toNat == 0x3000)

/-- `str::split_whitespace`: split into maximal runs of non-whitespace
(no empty tokens).  `acc` holds the current token reversed. -/
def splitWhitespaceAux : List Char → List Char → List (List Char)
  | [], acc => if acc.isEmpty then [] else [acc.reverse]
  | c :: rest, acc =>
      if isRustWhitespace c then
        if acc.isEmpty then splitWhitespaceAux rest []
        else acc.reverse :: splitWhitespaceAux rest []
      else splitWhitespaceAux rest (c :: acc)

/-- `str::trim_end_matches(ch)`: drop every trailing occurrence of `ch`. -/
def trimEndMatches (ch : Char) (cs : List Char) : List Char :=
  (cs.reverse.dropWhile (fun c => c == ch)).reverse

/-- `word.trim_end_matches(',').trim_end_matches(';')` from
`parse_version`. -/
def stripVersionToken (w : List Char) : List Char :=
  trimEndMatches ';' (trimEndMatches ',' w)

/-- `trimmed.chars().next().map_or(false, |c| c.is_ascii_digit()) &&
trimmed.contains('.')`. -/
def isVersionToken (t : List Char) : Bool :=
  (match t.head? with
   | some c => c.isDigit
   | none => false) && t.contains '.'

/-- `str::lines().next()`: the first line, with one trailing `\r` stripped
when the line was terminated by `\n`; `none` on the empty string. -/
def rustFirstLine (s : String) : Option String :=
  match s.toList with
  | [] => none
  | cs =>
      let t := cs.takeWhile (fun c => c ≠ '\n')
      let t := if t.length < cs.length ∧ t.getLast? = some '\r' then t.dropLast else t
      some (String.mk t)

/-- The `for word in output.split_whitespace()` loop of `parse_version`:
the first token whose stripped form is version-like, stripped. -/
def firstVersionTokenAux : List (List Char) → Option (List Char)
  | [] => none
  | w :: rest =>
      let trimmed := stripVersionToken w
      if isVersionToken trimmed then some trimmed
      else firstVersionTokenAux rest

/-- `parse_version` (service_detector.rs): first version-like
whitespace-separated token after stripping trailing `,` then `;`, else
`lines().next().unwrap_or("unknown")`. -/
def parseVersion (output : String) : String :=
  match firstVersionTokenAux (splitWhitespaceAux output.toList []) with
  | some t => String.mk t
  | none => (rustFirstLine output).getD "unknown"

/-- The spec's reading of the token search, written independently with
`List.findSome?`: used to state C9 against `parseVersion`. -/
def specVersionToken (output : String) : Option (List Char) :=
  (splitWhitespaceAux output.toList []).findSome? (fun w =>
    let t := stripVersionToken w
    if isVersionToken t then some t else none)

theorem firstVersionTokenAux_eq_findSome (ws : List (List Char)) :
    firstVersionTokenAux ws = ws.findSome? (fun w =>
      let t := stripVersionToken w
      if isVersionToken t then some t else none) := by
  induction ws with
  | nil => rfl
  | cons w rest ih =>
      unfold firstVersionTokenAux
      rw [List.findSome?_cons]
      by_cases hv : isVersionToken (stripVersionToken w)
      · simp [hv]
      · simp [hv, ih]

/-- **C9.** `parse_version` returns the first whitespace-separated token
that — after stripping trailing `,` and then `;` characters — starts with
an ASCII digit and contains a dot; when no such token exists it returns
the input's first line (`lines().next()`, defined whenever the input is
nonempty).  In particular it maps the four outputs from the spec to
`8.0.35`, `7.0.11`, `24.0.5` and `15.4`. -/
theorem parseVersionClaim :
    (∀ out t, specVersionToken out = some t → parseVersion out = String.mk t) ∧
    (∀ out l, specVersionToken out = none → rustFirstLine out = some l →
      parseVersion out = l) ∧
    parseVersion "mysql  Ver 8.0.35 Distrib 8.0.35, for Linux on x86_64 (x86_64) using  EditLine wrapper" = "8.0.35" ∧
    parseVersion "redis-cli 7.0.11" = "7.0.11" ∧
    parseVersion "Docker version 24.0.5, build ced0996" = "24.0.5" ∧
    parseVersion "psql (PostgreSQL) 15.4" = "15.4" := by
  refine ⟨?_, ?_, by decide, by decide, by decide, by decide⟩
  · intro out t h
    unfold parseVersion
    rw [firstVersionTokenAux_eq_findSome]
    unfold specVersionToken at h
    rw [h]
  · intro out l hnone hline
    unfold parseVersion
    rw [firstVersionTokenAux_eq_findSome]
    unfold specVersionToken at hnone
    rw [hnone, hline]
    rfl

/-- **C9 (witness).** `parseVersionClaim` applied to the concrete output
`OpenSSL 1.1.1w  11 Sep 2023` (token branch) and to `no digits here`
(first-line fallback branch). -/
theorem parseVersionClaimWitness :
    parseVersion "OpenSSL 1.1.1w  11 Sep 2023" = String.mk ['1', '.', '1', '.', '1', 'w'] ∧
    parseVersion "no digits here" = "no digits here" :=
  ⟨parseVersionClaim.1 "OpenSSL 1.1.1w  11 Sep 2023" ['1', '.', '1', '.', '1', 'w'] (by decide),
   parseVersionClaim.2.1 "no digits here" "no digits here" (by decide) (by decide)⟩

/-! ## Crypto helpers (`src/crypto/mod.rs`) -/

/-- Fold a byte list into an accumulator (a helper for the modelled AEAD
primitive below). -/
def mixBytes (seed : Nat) (bs : List Nat) : Nat :=
  bs.foldl (fun a b => (a * 131 + b) % 4294967291) seed

/-- Modelled from the spec: the `ring` crate's `AES_256_GCM` AEAD
primitive is not part of this repository, so it is modelled from the
spec's words — AES-256-GCM with a 32-byte key, a 12-byte nonce and a
16-byte tag appended to a ciphertext of the plaintext's length.  GCM is
counter-mode XOR with a key/nonce-determined keystream plus a
key/nonce/ciphertext-determined tag; the AES block internals are
abstracted into deterministic byte functions.  This is keystream byte
`i`. -/
def ringKeystreamByte (key nonce : List Nat) (i : Nat) : Nat :=
  (mixBytes (mixBytes 17 key) nonce + 89 * i) % 256

/-- Modelled from the spec: the keystream for a plaintext of length
`n`. -/
def ringKeystream (key nonce : List Nat) (n : Nat) : List Nat :=
  (List.range n).map (ringKeystreamByte key nonce)

/-- Modelled from the spec: the 16-byte authentication tag over the
ciphertext, determined by key, nonce and ciphertext. -/
def ringTag (key nonce ct : List Nat) : List Nat :=
  (List.range 16).map (fun j =>
    (mixBytes (mixBytes (mixBytes 23 key) nonce) ct + 59 * j) % 256)

/-- Modelled from the spec: `ring`'s `seal_in_place_append_tag` —
ciphertext (keystream XOR) followed by the 16-byte tag. -/
def sealInPlaceAppendTag (key nonce pt : List Nat) : List Nat :=
  List.zipWith Nat.xor pt (ringKeystream key nonce pt.length)
    ++ ringTag key nonce (List.zipWith Nat.xor pt (ringKeystream key nonce pt.length))

/-- Modelled from the spec: `ring`'s `open_in_place` — reject inputs
shorter than the tag, recompute and check the tag over the leading
ciphertext, undo the keystream XOR. -/
def openInPlace (key nonce inOut : List Nat) : Option (List Nat) :=
  if inOut.length < 16 then none
  else if inOut.drop (inOut.length - 16)
      = ringTag key nonce (inOut.take (inOut.length - 16)) then
    some (List.zipWith Nat.xor (inOut.take (inOut.length - 16))
      (ringKeystream key nonce (inOut.length - 16)))
  else none

/-- `encrypt` (crypto/mod.rs): check the key (32 bytes), seal with the
12 random nonce bytes — an explicit input here, modelling `SystemRandom` —
and prepend the nonce to ciphertext+tag. -/
def encrypt (key nonceBytes pt : List Nat) : Except String (List Nat) :=
  if key.length ≠ 32 then Except.error "Invalid key"
  else Except.ok (nonceBytes ++ sealInPlaceAppendTag key nonceBytes pt)

/-- `decrypt` (crypto/mod.rs): reject ciphertexts shorter than the
12-byte nonce, split the nonce off, check the key, and open. -/
def decrypt (key ct : List Nat) : Except String (List Nat) :=
  if ct.length < 12 then Except.error "Ciphertext too short"
  else if key.length ≠ 32 then Except.error "Invalid key"
  else
    match openInPlace key (ct.take 12) (ct.drop 12) with
    | some pt => Except.ok pt
    | none => Except.error "Decryption failed"

theorem zipWith_xor_cancel :
    ∀ (xs ks : List Nat), xs.length = ks.length →
      List.zipWith Nat.xor (List.zipWith Nat.xor xs ks) ks = xs
  | [], [], _ => rfl
  | [], _ :: _, h => by simp at h
  | _ :: _, [], h => by simp at h
  | x :: xs, k :: ks, h => by
      simp only [List.zipWith_cons_cons]
      rw [zipWith_xor_cancel xs ks (by simpa using h)]
      have hx : Nat.xor (Nat.xor x k) k = x := Nat.xor_cancel_right k x
      rw [hx]

theorem ringKeystream_length (key nonce : List Nat) (n : Nat) :
    (ringKeystream key nonce n).length = n := by
  simp [ringKeystream]

theorem ringTag_length (key nonce ct : List Nat) :
    (ringTag key nonce ct).length = 16 := by
  simp [ringTag]

theorem sealInPlaceAppendTag_length (key nonce pt : List Nat) :
    (sealInPlaceAppendTag key nonce pt).length = pt.length + 16 := by
  unfold sealInPlaceAppendTag
  rw [List.length_append, ringTag_length]
  simp [ringKeystream_length]

/-- Opening what was sealed recovers the plaintext (for any key/nonce). -/
theorem openInPlace_seal (key nonce pt : List Nat) :
    openInPlace key nonce (sealInPlaceAppendTag key nonce pt) = some pt := by
  have hctlen :
      (List.zipWith Nat.xor pt (ringKeystream key nonce pt.length)).length
        = pt.length := by
    simp [ringKeystream_length]
  have hlen := sealInPlaceAppendTag_length key nonce pt
  unfold openInPlace
  rw [if_neg (by omega)]
  have hsub : (sealInPlaceAppendTag key nonce pt).length - 16 = pt.length := by
    omega
  rw [hsub]
  have hsplit : sealInPlaceAppendTag key nonce pt
      = List.zipWith Nat.xor pt (ringKeystream key nonce pt.length)
        ++ ringTag key nonce
            (List.zipWith Nat.xor pt (ringKeystream key nonce pt.length)) := rfl
  have htake : (sealInPlaceAppendTag key nonce pt).take pt.length
      = List.zipWith Nat.xor pt (ringKeystream key nonce pt.length) := by
    rw [hsplit]
    exact List.take_left' hctlen
  have hdrop : (sealInPlaceAppendTag key nonce pt).drop pt.length
      = ringTag key nonce
          (List.zipWith Nat.xor pt (ringKeystream key nonce pt.length)) := by
    rw [hsplit]
    exact List.drop_left' hctlen
  rw [htake, hdrop, if_pos rfl]
  rw [zipWith_xor_cancel pt _ (by rw [ringKeystream_length])]

/-- **C6.** For every 32-byte key and 12-byte nonce, `encrypt` succeeds
and returns nonce ‖ ciphertext ‖ tag of length `len(p) + 28`
(12-byte nonce + ciphertext of the plaintext's length + 16-byte tag), and
`decrypt` of that output returns the plaintext; `decrypt` of any input
shorter than 12 bytes is the `Ciphertext too short` error. -/
theorem cryptoRoundTrip (key nonce pt : List Nat)
    (hk : key.length = 32) (hn : nonce.length = 12) :
    encrypt key nonce pt =
      Except.ok (nonce ++ sealInPlaceAppendTag key nonce pt) ∧
    (nonce ++ sealInPlaceAppendTag key nonce pt).length = pt.length + 28 ∧
    decrypt key (nonce ++ sealInPlaceAppendTag key nonce pt) =
      Except.ok pt ∧
    (∀ c : List Nat, c.length < 12 →
      decrypt key c = Except.error "Ciphertext too short") := by
  have hkey : ¬ key.length ≠ 32 := by omega
  have hseal := sealInPlaceAppendTag_length key nonce pt
  refine ⟨?_, ?_, ?_, ?_⟩
  · unfold encrypt
    rw [if_neg hkey]
  · rw [List.length_append, hseal]
    omega
  · unfold decrypt
    have hlen : (nonce ++ sealInPlaceAppendTag key nonce pt).length
        = pt.length + 28 := by
      rw [List.length_append, hseal]
      omega
    rw [if_neg (by omega), if_neg hkey]
    have htake : (nonce ++ sealInPlaceAppendTag key nonce pt).take 12 = nonce :=
      List.take_left' hn
    have hdrop : (nonce ++ sealInPlaceAppendTag key nonce pt).drop 12
        = sealInPlaceAppendTag key nonce pt :=
      List.drop_left' hn
    rw [htake, hdrop, openInPlace_seal]
  · intro c hc
    unfold decrypt
    rw [if_pos hc]

/-- **C6 (witness).** `cryptoRoundTrip` at the concrete key `0x42`×32,
nonce `0..11` and plaintext `"Hi"` (`[72, 105]`), plus the short-input
branch at the 3-byte input `[1, 2, 3]`. -/
theorem cryptoRoundTripWitness :
    encrypt (List.replicate 32 66) (List.range 12) [72, 105] =
      Except.ok (List.range 12 ++
        sealInPlaceAppendTag (List.replicate 32 66) (List.range 12) [72, 105]) ∧
    (List.range 12 ++
      sealInPlaceAppendTag (List.replicate 32 66) (List.range 12) [72, 105]).length
        = 30 ∧
    decrypt (List.replicate 32 66) (List.range 12 ++
      sealInPlaceAppendTag (List.replicate 32 66) (List.range 12) [72, 105]) =
        Except.ok [72, 105] ∧
    decrypt (List.replicate 32 66) [1, 2, 3] =
      Except.error "Ciphertext too short" :=
  let h := cryptoRoundTrip (List.replicate 32 66) (List.range 12) [72, 105]
    (by decide) (by decide)
  ⟨h.1, h.2.1, h.2.2.1, h.2.2.2 [1, 2, 3] (by decide)⟩

/-! ## Graph layout engine (`src/git_graph.rs`) -/

/-- `LayoutInput` from git_graph.rs. -/
structure LayoutInput where
  hash : String
  parents : String
  short_hash : String
  refs : String
  message : String
  author : String
  date_timestamp : Int
deriving Repr, DecidableEq

/-- Rust `str::split(' ')`: split at every space, keeping empty pieces
(structural recursion so that concrete inputs evaluate by kernel
reduction; `acc` holds the current piece reversed). -/
def splitOnSpaceAux : List Char → List Char → List String
  | [], acc => [String.mk acc.reverse]
  | c :: rest, acc =>
      if c = ' ' then String.mk acc.reverse :: splitOnSpaceAux rest []
      else splitOnSpaceAux rest (c :: acc)

/-- Rust `str::split(' ')` on a string. -/
def splitOnSpace (s : String) : List String :=
  splitOnSpaceAux s.toList []

/-- Per-commit parent hash lists: `c.parents.split(' ')` unless the field
is empty. -/
def parentListsOf (commits : List LayoutInput) : List (List String) :=
  commits.map (fun c => if c.parents = "" then [] else splitOnSpace c.parents)

/-- The `hash_to_row` map: `HashMap::insert` in row order, so for a
duplicated hash the later row wins.  `none` when the hash is not in the
input. -/
def hashToRow (commits : List LayoutInput) (h : String) : Option Nat :=
  (List.range commits.length).foldl
    (fun acc i =>
      match commits.get? i with
      | some c => if c.hash = h then some i else acc
      | none => acc)
    none

/-- The first unvisited parent of `cur`, in parent-list order — the
`next_node` search in `dfs_walk`. -/
def dfsNextParent (pl : List (List String)) (lookup : String → Option Nat)
    (li : List Int) (cur : Nat) : Option Nat :=
  (pl.getD cur []).findSome? (fun p =>
    match lookup p with
    | some pr => if li.getD pr 0 = 0 then some pr else none
    | none => none)

/-- The first-visit assignment `layout_index[cur] = current_li` (a no-op
on a revisit). -/
def dfsVisit (li : List Int) (c : Nat) (cur : Int) : List Int :=
  if li.getD c 0 = 0 then li.set c cur else li

/-- The `while let Some(&cur) = stack.last()` loop of `dfs_walk`.  Each
iteration either assigns one zero layout index or pops the stack, and a
node is pushed only while its index is zero, so a run from `[head]`
finishes within `2n` iterations; the fuel passed below (`2n + 2`) is never
exhausted. -/
def dfsLoop (pl : List (List String)) (lookup : String → Option Nat) :
    Nat → List Nat → List Int → Int → (List Int × Int)
  | 0, _, li, cur => (li, cur)
  | _ + 1, [], li, cur => (li, cur)
  | fuel + 1, c :: stack, li, cur =>
      match dfsNextParent pl lookup (dfsVisit li c cur) c with
      | some nxt => dfsLoop pl lookup fuel (nxt :: c :: stack) (dfsVisit li c cur) cur
      | none =>
          dfsLoop pl lookup fuel stack (dfsVisit li c cur)
            (if li.getD c 0 = 0 then cur + 1 else cur)

/-- `dfs_walk(head)`: skip an already-visited head, else run the stack
loop. -/
def dfsWalk (pl : List (List String)) (lookup : String → Option Nat) (n : Nat)
    (st : List Int × Int) (head : Nat) : List Int × Int :=
  if st.1.getD head 0 ≠ 0 then st
  else dfsLoop pl lookup (2 * n + 2) [head] st.1 st.2

/-- The rows referenced as a parent by any row (the `parent_set`). -/
def parentRowsOf (pl : List (List String)) (lookup : String → Option Nat) :
    List Nat :=
  pl.foldl
    (fun acc ps => ps.foldl
      (fun a p =>
        match lookup p with
        | some pr => pr :: a
        | none => a) acc)
    ([] : List Nat)

/-- The heads: rows never referenced as a parent, in ascending row
order. -/
def graphHeads (n : Nat) (pl : List (List String))
    (lookup : String → Option Nat) : List Nat :=
  (List.range n).filter (fun i => ¬ (parentRowsOf pl lookup).contains i)

/-- `assign_layout_indices`: DFS walks from the heads starting at
`current_li = 1`, then a cleanup pass over any row still unassigned. -/
def assignLayoutIndices (n : Nat) (pl : List (List String))
    (lookup : String → Option Nat) : List Int :=
  ((List.range n).foldl
    (fun st i => if st.1.getD i 0 = 0 then dfsWalk pl lookup n st i else st)
    ((graphHeads n pl lookup).foldl (dfsWalk pl lookup n)
      (List.replicate n 0, 1))).1

/-- The layout indices of a commit list. -/
def layoutIndexOf (commits : List LayoutInput) : List Int :=
  assignLayoutIndices commits.length (parentListsOf commits) (hashToRow commits)

/-- The color-assignment loop, carrying the `li_to_color` map (an
association list standing in for the `HashMap`; only fresh keys are ever
inserted) and `next_color`; returns the `node_colors` list.  Items are
`(is_main, layout_index)` pairs in row order. -/
def colorFold : List (Bool × Int) → List (Int × Int) → Int → List Int
  | [], _, _ => []
  | (true, _) :: rest, m, next => 0 :: colorFold rest m next
  | (false, li) :: rest, m, next =>
      match m.lookup li with
      | some c => c :: colorFold rest m next
      | none => next :: colorFold rest ((li, next) :: m) (next + 1)

/-- The `li_to_color` map and `next_color` left by the loop. -/
def colorFoldMap : List (Bool × Int) → List (Int × Int) → Int →
    (List (Int × Int) × Int)
  | [], m, next => (m, next)
  | (true, _) :: rest, m, next => colorFoldMap rest m next
  | (false, li) :: rest, m, next =>
      match m.lookup li with
      | some _ => colorFoldMap rest m next
      | none => colorFoldMap rest ((li, next) :: m) (next + 1)

/-- `node_colors`: main-chain rows get 0, the rest are colored per layout
index starting from 1. -/
def nodeColors (commits : List LayoutInput) (mainChain : List String)
    (li : List Int) : List Int :=
  colorFold ((commits.map (fun c => mainChain.contains c.hash)).zip li) [] 1

/-- `EdgeInfo` from `compute_graph_layout` (the `_parent_index` field is
kept under the name `parent_index`). -/
structure EdgeInfo where
  child_row : Nat
  parent_row : Nat
  parent_index : Nat
  up_li : Int
  down_li : Int
  color_index : Int
deriving Repr, DecidableEq

/-- The edge-list phase: for each commit and each of its parents present
in the input with `parent_row > child_row`, emit an `EdgeInfo` with the
child/parent layout indices and the first-parent/merge color rule. -/
def buildEdges (n : Nat) (pl : List (List String))
    (lookup : String → Option Nat) (li : List Int) (colors : List Int) :
    List EdgeInfo :=
  pl.enum.flatMap (fun ce =>
    ce.2.enum.filterMap (fun pe =>
      match lookup pe.2 with
      | none => none
      | some pr =>
          if pr ≤ ce.1 then none
          else
            some { child_row := ce.1, parent_row := pr, parent_index := pe.1,
                   up_li := li.getD ce.1 0,
                   down_li := if pr < n then li.getD pr 0 else li.getD ce.1 0,
                   color_index :=
                     if pe.1 = 0 then colors.getD ce.1 0
                     else if pr < n then colors.getD pr 0
                     else colors.getD ce.1 0 }))

/-- The edge list of `compute_graph_layout` on a commit list. -/
def allEdges (commits : List LayoutInput) (mainChain : List String) :
    List EdgeInfo :=
  buildEdges commits.length (parentListsOf commits) (hashToRow commits)
    (layoutIndexOf commits)
    (nodeColors commits mainChain (layoutIndexOf commits))

/-- `long_edge_size` from the `show_long_edges` mode. -/
def longEdgeSize (showLongEdges : Bool) : Int :=
  if showLongEdges then 1000 else 30

/-- `visible_part_size` from the `show_long_edges` mode. -/
def visiblePartSize (showLongEdges : Bool) : Int :=
  if showLongEdges then 250 else 1

/-- `edge_with_arrow_size` from the `show_long_edges` mode (`i32::MAX`
when long edges are hidden). -/
def edgeWithArrowSize (showLongEdges : Bool) : Int :=
  if showLongEdges then 30 else 2147483647

/-- `is_edge_visible_in_row`. -/
def isEdgeVisibleInRow (childRow parentRow row longEdge visiblePart
    edgeArrow : Int) : Bool :=
  if parentRow - childRow ≥ longEdge then
    decide (row - childRow ≤ visiblePart) || decide (parentRow - row ≤ visiblePart)
  else if parentRow - childRow ≥ edgeArrow then
    decide (row - childRow ≤ 1) || decide (parentRow - row ≤ 1)
  else
    true

/-- `RowElement` from the phase-2 sweep. -/
structure RowElement where
  isNode : Bool
  edge_index : Nat
  up_li : Int
  down_li : Int
  up_row : Int
  down_row : Int
deriving Repr, DecidableEq

/-- The virtual node `RowElement` built inside the comparator (also the
shape of a row's own node element). -/
def virtualNode (li row : Int) : RowElement :=
  { isNode := true, edge_index := 0, up_li := li, down_li := li,
    up_row := row, down_row := row }

/-- `compare2(edge, node)`: positive means the edge goes right of the
node. -/
def compare2 (e nElem : RowElement) : Int :=
  if max e.up_li e.down_li ≠ nElem.up_li then max e.up_li e.down_li - nElem.up_li
  else e.up_row - nElem.up_row

/-- `compare_elements`: IDEA's element comparator. -/
def compareElements (lhs rhs : RowElement) : Int :=
  if lhs.isNode = false ∧ rhs.isNode = false then
    if lhs.up_row = rhs.up_row then
      if lhs.down_row < rhs.down_row then
        -(compare2 rhs (virtualNode lhs.down_li lhs.down_row))
      else
        compare2 lhs (virtualNode rhs.down_li rhs.down_row)
    else if lhs.up_row < rhs.up_row then
      compare2 lhs (virtualNode rhs.up_li rhs.up_row)
    else
      -(compare2 rhs (virtualNode lhs.up_li lhs.up_row))
  else if lhs.isNode = false ∧ rhs.isNode = true then
    compare2 lhs rhs
  else if lhs.isNode = true ∧ rhs.isNode = false then
    -(compare2 rhs lhs)
  else
    0

/-- The edge indices active at `row`: inserted at the edge's first
intermediate row (`child_row + 1`) and retained through its last
intermediate row (`min(parent_row - 1, n - 1)`), in ascending index order
(standing in for the `HashSet` iteration; ties in the comparator are
resolved by the stable sort below). -/
def activeEdgeIdxAt (edges : List EdgeInfo) (n row : Nat) : List Nat :=
  (List.range edges.length).filter (fun ei =>
    match edges.get? ei with
    | some e =>
        decide (e.child_row + 1 ≤ row) &&
          decide (row ≤ min (e.parent_row - 1) (n - 1))
    | none => false)

/-- The elements of one sweep row: the node element followed by every
visible active edge. -/
def rowElements (edges : List EdgeInfo) (li : List Int) (n : Nat)
    (sle : Bool) (row : Nat) : List RowElement :=
  virtualNode (li.getD row 0) (Int.ofNat row) ::
    (activeEdgeIdxAt edges n row).filterMap (fun ei =>
      match edges.get? ei with
      | none => none
      | some e =>
          if isEdgeVisibleInRow (Int.ofNat e.child_row)
              (Int.ofNat (min e.parent_row (n - 1))) (Int.ofNat row)
              (longEdgeSize sle) (visiblePartSize sle) (edgeWithArrowSize sle) then
            some { isNode := false, edge_index := ei, up_li := e.up_li,
                   down_li := e.down_li, up_row := Int.ofNat e.child_row,
                   down_row := Int.ofNat e.parent_row }
          else
            none)

/-- The sorted elements of one sweep row (`sort_by` is stable; so is
insertion sort). -/
def sortedRowElements (edges : List EdgeInfo) (li : List Int) (n : Nat)
    (sle : Bool) (row : Nat) : List RowElement :=
  List.insertionSort (fun x y => compareElements x y ≤ 0)
    (rowElements edges li n sle row)

/-- `node_columns[row]`: the position of the node element in the sorted
row (the enumerate-and-overwrite loop of the source). -/
def nodeColumnAt (edges : List EdgeInfo) (li : List Int) (n : Nat)
    (sle : Bool) (row : Nat) : Int :=
  ((sortedRowElements edges li n sle row).enum).foldl
    (fun acc p => if p.2.isNode then Int.ofNat p.1 else acc) 0

/-- `GraphRow` from git_graph.rs, without its two pixel-geometry fields
(`segments`, `arrows` are `f32` drawing data produced by phase 3; no claim
touches them and IEEE-754 geometry is outside this embedding). -/
structure GraphRow where
  hash : String
  short_hash : String
  message : String
  author : String
  date_timestamp : Int
  refs : String
  parents : String
  node_column : Int
  color_index : Int
deriving Repr, DecidableEq

/-- `compute_graph_layout` restricted to the fields above: early return on
an empty input, phase 1 layout indices, colors, edge list, phase 2 column
sweep, and one output row per input commit in input order.  Of
`LayoutParams` only `show_long_edges` is taken: `lane_width` and
`row_height` feed solely the phase-3 pixel geometry. -/
def computeGraphLayout (commits : List LayoutInput) (mainChain : List String)
    (sle : Bool) : List GraphRow :=
  if commits.isEmpty then []
  else
    commits.enum.map (fun p =>
      { hash := p.2.hash, short_hash := p.2.short_hash,
        message := p.2.message, author := p.2.author,
        date_timestamp := p.2.date_timestamp, refs := p.2.refs,
        parents := p.2.parents,
        node_column := nodeColumnAt (allEdges commits mainChain)
          (layoutIndexOf commits) commits.length sle p.1,
        color_index :=
          (nodeColors commits mainChain (layoutIndexOf commits)).getD p.1 0 })

/-! ### Claims C3, C4, C5 -/

theorem hashToRowAux_lt (commits : List LayoutInput) (h : String) :
    ∀ (l : List Nat) (acc : Option Nat),
      (∀ j, acc = some j → j < commits.length) →
      ∀ k, List.foldl (fun acc i =>
          match commits.get? i with
          | some c => if c.hash = h then some i else acc
          | none => acc) acc l = some k → k < commits.length
  | [], acc, hacc, k, hk => hacc k (by simpa using hk)
  | i :: l, acc, hacc, k, hk => by
      rw [List.foldl_cons] at hk
      refine hashToRowAux_lt commits h l _ ?_ k hk
      intro j hj
      cases hget : commits.get? i with
      | none =>
          rw [hget] at hj
          exact hacc j hj
      | some c =>
          rw [hget] at hj
          have hj' : (if c.hash = h then some i else acc) = some j := hj
          by_cases hh : c.hash = h
          · rw [if_pos hh] at hj'
            cases hj'
            obtain ⟨hlt, -⟩ := List.get?_eq_some.mp hget
            exact hlt
          · rw [if_neg hh] at hj'
            exact hacc j hj'

/-- `hash_to_row` only maps to valid row indices. -/
theorem hashToRow_lt {commits : List LayoutInput} {h : String} {i : Nat}
    (hi : hashToRow commits h = some i) : i < commits.length := by
  unfold hashToRow at hi
  exact hashToRowAux_lt commits h _ none (by intro j hj; cases hj) i hi

/-- The input for claim C3's counterexample: two heads `a` and `b` both
with the single parent `c`. -/
def twoHeadsCommits : List LayoutInput :=
  [{ hash := "a", parents := "c", short_hash := "a", refs := "",
     message := "", author := "", date_timestamp := 0 },
   { hash := "b", parents := "c", short_hash := "b", refs := "",
     message := "", author := "", date_timestamp := 0 },
   { hash := "c", parents := "", short_hash := "c", refs := "",
     message := "", author := "", date_timestamp := 0 }]

/-- **C3 (counterexample).** The claim `up_li ≤ down_li` for every emitted
edge fails on the code: with two heads `a` (row 0) and `b` (row 1) sharing
the parent `c` (row 2), the DFS assigns layout indices `[1, 2, 1]`, and
the edge from `b` to `c` gets `up_li = 2 > 1 = down_li` (the parent was
already visited by the first head's walk). -/
theorem edgeUpDownLiCounterexample :
    (⟨1, 2, 0, 2, 1, 2⟩ : EdgeInfo) ∈ allEdges twoHeadsCommits [] ∧
    ¬ ((⟨1, 2, 0, 2, 1, 2⟩ : EdgeInfo).up_li
        ≤ (⟨1, 2, 0, 2, 1, 2⟩ : EdgeInfo).down_li) := by
  decide

/-- **C3 (amended).** Every edge emitted by the edge-list phase of
`compute_graph_layout` joins a child row to a parent row that is present
in the input and strictly below it, and carries `up_li` and `down_li`
equal to the DFS layout indices of the child and parent rows respectively.
The inequality `up_li ≤ down_li` does NOT hold in general
(`edgeUpDownLiCounterexample`): a merge into a lane already visited by an
earlier head has `up_li > down_li`. -/
theorem edgeEndpointsSpec (commits : List LayoutInput)
    (mainChain : List String) (e : EdgeInfo)
    (he : e ∈ allEdges commits mainChain) :
    e.child_row < e.parent_row ∧ e.parent_row < commits.length ∧
    e.up_li = (layoutIndexOf commits).getD e.child_row 0 ∧
    e.down_li = (layoutIndexOf commits).getD e.parent_row 0 := by
  unfold allEdges buildEdges at he
  rw [List.mem_flatMap] at he
  obtain ⟨ce, _hce, hin⟩ := he
  rw [List.mem_filterMap] at hin
  obtain ⟨pe, _hpe, heq⟩ := hin
  cases hlk : hashToRow commits pe.2 with
  | none => rw [hlk] at heq; exact absurd heq (by simp)
  | some pr =>
      rw [hlk] at heq
      simp only [] at heq
      by_cases hle : pr ≤ ce.1
      · rw [if_pos hle] at heq
        exact absurd heq (by simp)
      · rw [if_neg hle] at heq
        injection heq with heq'
        subst heq'
        have hprlt : pr < commits.length := hashToRow_lt hlk
        refine ⟨show ce.1 < pr by omega, hprlt, rfl, ?_⟩
        show (if pr < commits.length then (layoutIndexOf commits).getD pr 0
          else (layoutIndexOf commits).getD ce.1 0) = _
        rw [if_pos hprlt]

/-- **C3 (witness).** `edgeEndpointsSpec` at the `b → c` edge of the
two-heads input. -/
theorem edgeEndpointsSpecWitness :
    (1 : Nat) < 2 ∧ 2 < twoHeadsCommits.length ∧
    (2 : Int) = (layoutIndexOf twoHeadsCommits).getD 1 0 ∧
    (1 : Int) = (layoutIndexOf twoHeadsCommits).getD 2 0 :=
  edgeEndpointsSpec twoHeadsCommits [] ⟨1, 2, 0, 2, 1, 2⟩ (by decide)

/-! ### Length lemmas for the layout pipeline -/

theorem dfsVisit_length (li : List Int) (c : Nat) (cur : Int) :
    (dfsVisit li c cur).length = li.length := by
  unfold dfsVisit
  split <;> simp

theorem dfsLoop_length (pl : List (List String)) (lookup : String → Option Nat) :
    ∀ (fuel : Nat) (stack : List Nat) (li : List Int) (cur : Int),
      ((dfsLoop pl lookup fuel stack li cur).1).length = li.length
  | 0, _, _, _ => rfl
  | _ + 1, [], _, _ => rfl
  | fuel + 1, c :: stack, li, cur => by
      unfold dfsLoop
      split
      · rw [dfsLoop_length pl lookup fuel _ _ _, dfsVisit_length]
      · rw [dfsLoop_length pl lookup fuel _ _ _, dfsVisit_length]

theorem dfsWalk_length (pl : List (List String)) (lookup : String → Option Nat)
    (n : Nat) (st : List Int × Int) (head : Nat) :
    ((dfsWalk pl lookup n st head).1).length = st.1.length := by
  unfold dfsWalk
  split
  · rfl
  · rw [dfsLoop_length]

theorem foldl_dfsWalk_length (pl : List (List String))
    (lookup : String → Option Nat) (n : Nat) :
    ∀ (hs : List Nat) (st : List Int × Int),
      ((hs.foldl (dfsWalk pl lookup n) st).1).length = st.1.length
  | [], _ => rfl
  | h :: hs, st => by
      rw [List.foldl_cons, foldl_dfsWalk_length pl lookup n hs _, dfsWalk_length]

theorem foldl_dfsWalkIf_length (pl : List (List String))
    (lookup : String → Option Nat) (n : Nat) :
    ∀ (l : List Nat) (st : List Int × Int),
      ((l.foldl (fun st i =>
        if st.1.getD i 0 = 0 then dfsWalk pl lookup n st i else st) st).1).length
        = st.1.length
  | [], _ => rfl
  | i :: l, st => by
      rw [List.foldl_cons, foldl_dfsWalkIf_length pl lookup n l _]
      split
      · rw [dfsWalk_length]
      · rfl

theorem layoutIndexOf_length (commits : List LayoutInput) :
    (layoutIndexOf commits).length = commits.length := by
  unfold layoutIndexOf assignLayoutIndices
  rw [foldl_dfsWalkIf_length, foldl_dfsWalk_length]
  simp

theorem colorFold_length :
    ∀ (items : List (Bool × Int)) (m : List (Int × Int)) (next : Int),
      (colorFold items m next).length = items.length
  | [], _, _ => rfl
  | (true, _) :: rest, m, next => by
      unfold colorFold
      simp [colorFold_length rest m next]
  | (false, li) :: rest, m, next => by
      unfold colorFold
      split
      · simp [colorFold_length rest m next]
      · simp [colorFold_length rest _ _]

theorem nodeColors_length (commits : List LayoutInput) (mainChain : List String) :
    (nodeColors commits mainChain (layoutIndexOf commits)).length
      = commits.length := by
  unfold nodeColors
  rw [colorFold_length]
  simp [layoutIndexOf_length]

/-! ### Claim C4 -/

/-- **C4.** `compute_graph_layout` emits exactly one `GraphRow` per input
commit, in input order, and row `i` carries the hash, short_hash, message,
author, date_timestamp, refs and parents of input `i` (stated as equality
of the projected lists, which forces both the count and the order). -/
theorem graphRowsPreserveInput (commits : List LayoutInput)
    (mainChain : List String) (sle : Bool) :
    (computeGraphLayout commits mainChain sle).length = commits.length ∧
    (computeGraphLayout commits mainChain sle).map (fun r =>
        (r.hash, r.short_hash, r.message, r.author, r.date_timestamp,
          r.refs, r.parents))
      = commits.map (fun c =>
        (c.hash, c.short_hash, c.message, c.author, c.date_timestamp,
          c.refs, c.parents)) := by
  unfold computeGraphLayout
  by_cases hemp : commits.isEmpty
  · rw [if_pos hemp]
    have hnil : commits = [] := by simpa using hemp
    subst hnil
    exact ⟨rfl, rfl⟩
  · rw [if_neg hemp]
    constructor
    · simp
    · rw [List.map_map]
      conv_rhs => rw [← List.enum_map_snd commits, List.map_map]
      rfl

/-! ### Claim C5 -/

theorem lookup_cons_int (l v : Int) (m : List (Int × Int)) (li : Int) :
    ((l, v) :: m).lookup li = if li = l then some v else m.lookup li := by
  by_cases he : li = l
  · have hb : (li == l) = true := by simp [he]
    simp [List.lookup, hb, he]
  · have hb : (li == l) = false := by simp [he]
    simp [List.lookup, hb, he]

/-- Invariant of the `li_to_color` map: colors live in `[1, next)` and no
color is assigned to two layout indices. -/
def ColorMapGood (m : List (Int × Int)) (next : Int) : Prop :=
  1 ≤ next ∧
  (∀ li c, m.lookup li = some c → 1 ≤ c ∧ c < next) ∧
  (∀ li₁ li₂ c, m.lookup li₁ = some c → m.lookup li₂ = some c → li₁ = li₂)

theorem colorMapGood_insert {m : List (Int × Int)} {next l : Int}
    (hg : ColorMapGood m next) (_hnone : m.lookup l = none) :
    ColorMapGood ((l, next) :: m) (next + 1) := by
  obtain ⟨h1, h2, h3⟩ := hg
  refine ⟨by omega, ?_, ?_⟩
  · intro li c hc
    rw [lookup_cons_int] at hc
    by_cases he : li = l
    · rw [if_pos he] at hc
      cases hc
      omega
    · rw [if_neg he] at hc
      have := h2 li c hc
      omega
  · intro li₁ li₂ c hc1 hc2
    rw [lookup_cons_int] at hc1 hc2
    by_cases he1 : li₁ = l <;> by_cases he2 : li₂ = l
    · rw [he1, he2]
    · rw [if_pos he1] at hc1
      rw [if_neg he2] at hc2
      cases hc1
      have := h2 li₂ next hc2
      omega
    · rw [if_neg he1] at hc1
      rw [if_pos he2] at hc2
      cases hc2
      have := h2 li₁ next hc1
      omega
    · rw [if_neg he1] at hc1
      rw [if_neg he2] at hc2
      exact h3 li₁ li₂ c hc1 hc2

theorem colorFoldMap_lookup_mono :
    ∀ (items : List (Bool × Int)) (m : List (Int × Int)) (next li c : Int),
      m.lookup li = some c →
      ((colorFoldMap items m next).1).lookup li = some c
  | [], _, _, _, _, h => h
  | (true, _) :: rest, m, next, li, c, h =>
      colorFoldMap_lookup_mono rest m next li c h
  | (false, l) :: rest, m, next, li, c, h => by
      unfold colorFoldMap
      split
      · exact colorFoldMap_lookup_mono rest m next li c h
      case _ hl =>
        refine colorFoldMap_lookup_mono rest _ _ li c ?_
        rw [lookup_cons_int]
        have hne : li ≠ l := by
          intro he
          rw [he, hl] at h
          cases h
        rw [if_neg hne]
        exact h

theorem colorFoldMap_good :
    ∀ (items : List (Bool × Int)) (m : List (Int × Int)) (next : Int),
      ColorMapGood m next →
      ColorMapGood (colorFoldMap items m next).1 (colorFoldMap items m next).2
  | [], _, _, hg => hg
  | (true, _) :: rest, m, next, hg => colorFoldMap_good rest m next hg
  | (false, l) :: rest, m, next, hg => by
      unfold colorFoldMap
      split
      · exact colorFoldMap_good rest m next hg
      case _ hl =>
        exact colorFoldMap_good rest _ _ (colorMapGood_insert hg hl)

theorem colorFold_spec :
    ∀ (items : List (Bool × Int)) (m : List (Int × Int)) (next : Int),
      ColorMapGood m next → ∀ k, k < items.length →
      ((items.getD k (true, 0)).1 = true →
        (colorFold items m next).getD k 0 = 0) ∧
      ((items.getD k (true, 0)).1 = false →
        ((colorFoldMap items m next).1).lookup (items.getD k (true, 0)).2
            = some ((colorFold items m next).getD k 0) ∧
          1 ≤ (colorFold items m next).getD k 0)
  | [], _, _, _, k, hk => absurd hk (by simp)
  | (b, l) :: rest, m, next, hg, 0, _ => by
      cases b
      · constructor
        · intro h
          exact absurd h (by simp)
        · intro _
          unfold colorFold colorFoldMap
          split
          case _ c hl =>
            refine ⟨?_, ?_⟩
            · show (colorFoldMap rest m next).1.lookup l = some c
              exact colorFoldMap_lookup_mono rest m next l c hl
            · show (1 : Int) ≤ c
              exact (hg.2.1 l c hl).1
          case _ hl =>
            refine ⟨?_, ?_⟩
            · show (colorFoldMap rest ((l, next) :: m) (next + 1)).1.lookup l
                = some next
              refine colorFoldMap_lookup_mono rest _ _ l next ?_
              rw [lookup_cons_int, if_pos rfl]
            · show (1 : Int) ≤ next
              exact hg.1
      · constructor
        · intro _
          rfl
        · intro h
          exact absurd h (by simp)
  | (b, l) :: rest, m, next, hg, k + 1, hk => by
      have hk' : k < rest.length := by
        simp at hk
        omega
      cases b
      · cases hl : m.lookup l with
        | some c =>
            have ih := colorFold_spec rest m next hg k hk'
            constructor
            · intro h
              have h' : (rest.getD k (true, 0)).1 = true := h
              show (colorFold ((false, l) :: rest) m next).getD (k + 1) 0 = 0
              unfold colorFold
              rw [hl]
              simpa using ih.1 h'
            · intro h
              have h' : (rest.getD k (true, 0)).1 = false := h
              have := ih.2 h'
              constructor
              · show (colorFoldMap ((false, l) :: rest) m next).1.lookup
                    (rest.getD k (true, 0)).2 = _
                unfold colorFoldMap colorFold
                rw [hl]
                simpa using this.1
              · show (1 : Int) ≤ (colorFold ((false, l) :: rest) m next).getD (k + 1) 0
                unfold colorFold
                rw [hl]
                simpa using this.2
        | none =>
            have ih := colorFold_spec rest ((l, next) :: m) (next + 1)
              (colorMapGood_insert hg hl) k hk'
            constructor
            · intro h
              have h' : (rest.getD k (true, 0)).1 = true := h
              show (colorFold ((false, l) :: rest) m next).getD (k + 1) 0 = 0
              unfold colorFold
              rw [hl]
              simpa using ih.1 h'
            · intro h
              have h' : (rest.getD k (true, 0)).1 = false := h
              have := ih.2 h'
              constructor
              · show (colorFoldMap ((false, l) :: rest) m next).1.lookup
                    (rest.getD k (true, 0)).2 = _
                unfold colorFoldMap colorFold
                rw [hl]
                simpa using this.1
              · show (1 : Int) ≤ (colorFold ((false, l) :: rest) m next).getD (k + 1) 0
                unfold colorFold
                rw [hl]
                simpa using this.2
      · have ih := colorFold_spec rest m next hg k hk'
        constructor
        · intro h
          have h' : (rest.getD k (true, 0)).1 = true := h
          show (colorFold ((true, l) :: rest) m next).getD (k + 1) 0 = 0
          unfold colorFold
          simpa using ih.1 h'
        · intro h
          have h' : (rest.getD k (true, 0)).1 = false := h
          have := ih.2 h'
          constructor
          · show (colorFoldMap ((true, l) :: rest) m next).1.lookup
                (rest.getD k (true, 0)).2 = _
            unfold colorFoldMap colorFold
            simpa using this.1
          · show (1 : Int) ≤ (colorFold ((true, l) :: rest) m next).getD (k + 1) 0
            unfold colorFold
            simpa using this.2

/-- A placeholder `GraphRow` for `List.getD` (never actually returned at
in-range indices). -/
def dummyRow : GraphRow :=
  { hash := "", short_hash := "", message := "", author := "",
    date_timestamp := 0, refs := "", parents := "", node_column := 0,
    color_index := 0 }

/-- A placeholder `LayoutInput` for `List.getD`. -/
def dummyInput : LayoutInput :=
  { hash := "", parents := "", short_hash := "", refs := "", message := "",
    author := "", date_timestamp := 0 }

/-- The items fed to the color loop: `(is_main, layout_index)` per row. -/
def colorItemsOf (commits : List LayoutInput) (mainChain : List String) :
    List (Bool × Int) :=
  (commits.map (fun c => mainChain.contains c.hash)).zip (layoutIndexOf commits)

theorem colorItemsOf_length (commits : List LayoutInput)
    (mainChain : List String) :
    (colorItemsOf commits mainChain).length = commits.length := by
  unfold colorItemsOf
  simp [layoutIndexOf_length]

theorem colorItemsOf_getD (commits : List LayoutInput)
    (mainChain : List String) (k : Nat) (hk : k < commits.length) :
    (colorItemsOf commits mainChain).getD k (true, 0)
      = (mainChain.contains ((commits.getD k dummyInput).hash),
          (layoutIndexOf commits).getD k 0) := by
  have hk1 : k < (colorItemsOf commits mainChain).length := by
    rw [colorItemsOf_length]
    exact hk
  have hk2 : k < (commits.map (fun c => mainChain.contains c.hash)).length := by
    simpa using hk
  have hk3 : k < (layoutIndexOf commits).length := by
    rw [layoutIndexOf_length]
    exact hk
  rw [List.getD_eq_getElem _ _ hk1]
  unfold colorItemsOf
  rw [List.getElem_zip]
  rw [List.getElem_map]
  rw [List.getD_eq_getElem _ _ hk, List.getD_eq_getElem _ _ hk3]

theorem nodeColors_eq_colorFold (commits : List LayoutInput)
    (mainChain : List String) :
    nodeColors commits mainChain (layoutIndexOf commits)
      = colorFold (colorItemsOf commits mainChain) [] 1 := rfl

theorem colorMapGood_empty : ColorMapGood [] 1 := by
  refine ⟨le_refl 1, ?_, ?_⟩
  · intro li c hc
    cases hc
  · intro li₁ li₂ c hc1 _
    cases hc1

theorem getD_map_enum {α β : Type} (f : Nat × α → β) (l : List α) (k : Nat)
    (hk : k < l.length) (d : β) (d2 : α) :
    (l.enum.map f).getD k d = f (k, l.getD k d2) := by
  have h1 : k < (l.enum.map f).length := by
    simpa using hk
  rw [List.getD_eq_getElem _ _ h1, List.getElem_map, List.getElem_enum,
    List.getD_eq_getElem _ _ hk]

/-- `color_index` of output row `k` is `node_colors[k]`. -/
theorem computeGraphLayout_color (commits : List LayoutInput)
    (mainChain : List String) (sle : Bool) (k : Nat)
    (hk : k < commits.length) :
    ((computeGraphLayout commits mainChain sle).getD k dummyRow).color_index
      = (nodeColors commits mainChain (layoutIndexOf commits)).getD k 0 := by
  unfold computeGraphLayout
  have hne : ¬ commits.isEmpty = true := by
    intro h
    rw [List.isEmpty_iff] at h
    subst h
    simp at hk
  rw [if_neg hne]
  rw [getD_map_enum _ commits k hk dummyRow dummyInput]

/-- **C5.** In `compute_graph_layout`, every commit whose hash is in
`main_chain` gets `color_index` 0; every other commit gets a color
assigned per layout-index value starting at 1 (colors of non-main rows are
≥ 1), and two non-main rows get the same color exactly when they share a
layout index — so all non-main rows sharing a layout index share the
color, and distinct layout indices never collide (colors are handed out by
incrementing a counter on first sighting). -/
theorem colorIndexAssignment (commits : List LayoutInput)
    (mainChain : List String) (sle : Bool) (i j : Nat)
    (hi : i < commits.length) (hj : j < commits.length) :
    (mainChain.contains ((commits.getD i dummyInput).hash) = true →
      ((computeGraphLayout commits mainChain sle).getD i dummyRow).color_index
        = 0) ∧
    (mainChain.contains ((commits.getD i dummyInput).hash) = false →
      1 ≤ ((computeGraphLayout commits mainChain sle).getD i
        dummyRow).color_index) ∧
    (mainChain.contains ((commits.getD i dummyInput).hash) = false →
      mainChain.contains ((commits.getD j dummyInput).hash) = false →
      ((layoutIndexOf commits).getD i 0 = (layoutIndexOf commits).getD j 0 ↔
        ((computeGraphLayout commits mainChain sle).getD i
          dummyRow).color_index
          = ((computeGraphLayout commits mainChain sle).getD j
            dummyRow).color_index)) := by
  have hileft : i < (colorItemsOf commits mainChain).length := by
    rw [colorItemsOf_length]
    exact hi
  have hjleft : j < (colorItemsOf commits mainChain).length := by
    rw [colorItemsOf_length]
    exact hj
  have hspec_i := colorFold_spec (colorItemsOf commits mainChain) [] 1
    colorMapGood_empty i hileft
  have hspec_j := colorFold_spec (colorItemsOf commits mainChain) [] 1
    colorMapGood_empty j hjleft
  have hcolor_i := computeGraphLayout_color commits mainChain sle i hi
  have hcolor_j := computeGraphLayout_color commits mainChain sle j hj
  have hitems_i := colorItemsOf_getD commits mainChain i hi
  have hitems_j := colorItemsOf_getD commits mainChain j hj
  rw [hitems_i] at hspec_i
  rw [hitems_j] at hspec_j
  rw [nodeColors_eq_colorFold] at hcolor_i hcolor_j
  have hgood := colorFoldMap_good (colorItemsOf commits mainChain) [] 1
    colorMapGood_empty
  refine ⟨?_, ?_, ?_⟩
  · intro hmain
    rw [hcolor_i]
    exact hspec_i.1 (by simpa using hmain)
  · intro hnotmain
    rw [hcolor_i]
    exact (hspec_i.2 (by simpa using hnotmain)).2
  · intro hnm_i hnm_j
    have hI := hspec_i.2 (by simpa using hnm_i)
    have hJ := hspec_j.2 (by simpa using hnm_j)
    rw [hcolor_i, hcolor_j]
    constructor
    · intro hli
      rw [hli] at hI
      exact Option.some.inj (hI.1.symm.trans hJ.1)
    · intro hcol
      rw [hcol] at hI
      exact hgood.2.2 _ _ _ hI.1 hJ.1

/-- The input for claim C5's witness: a merge `M` of `A` and `B` with
`M` and `A` on the main chain. -/
def mergeCommits : List LayoutInput :=
  [{ hash := "M", parents := "A B", short_hash := "M", refs := "",
     message := "", author := "", date_timestamp := 0 },
   { hash := "A", parents := "", short_hash := "A", refs := "",
     message := "", author := "", date_timestamp := 0 },
   { hash := "B", parents := "", short_hash := "B", refs := "",
     message := "", author := "", date_timestamp := 0 }]

/-- **C5 (witness).** `colorIndexAssignment` on the merge input: the
main-chain row `M` gets color 0 and the non-main row `B` gets a color
≥ 1. -/
theorem colorIndexAssignmentWitness :
    ((computeGraphLayout mergeCommits ["M", "A"] false).getD 0
      dummyRow).color_index = 0 ∧
    1 ≤ ((computeGraphLayout mergeCommits ["M", "A"] false).getD 2
      dummyRow).color_index :=
  ⟨(colorIndexAssignment mergeCommits ["M", "A"] false 0 2
      (by decide) (by decide)).1 (by decide),
   (colorIndexAssignment mergeCommits ["M", "A"] false 2 0
      (by decide) (by decide)).2.1 (by decide)⟩

end Pier
